import Mathlib

/-!
Verification of the annotations core of this repository
(file src/mne/annotations.py) as a shallow embedding.

Times are modelled as rationals (the Python code uses IEEE floats; all the
claims under scrutiny are about exact control flow and exact arithmetic
identities, so the field structure is what matters).  Numpy 1-D arrays
become Lean lists; vectorized numpy expressions become the corresponding
elementwise list operations; in-place mutation becomes explicit state
passing; raised exceptions become Except.error carrying the message text.
-/

namespace MneAnnot

/-- The Annotations object of annotations.py: three parallel sequences and a
single optional absolute origin (self.orig_time, self.onset, self.duration,
self.description). -/
structure Annotations where
  orig_time : Option ℚ
  onset : List ℚ
  duration : List ℚ
  description : List String
  deriving DecidableEq

/-- The data-model invariant: the three sequences have equal length. -/
def sameLengths (a : Annotations) : Prop :=
  a.onset.length = a.duration.length ∧ a.duration.length = a.description.length

instance (a : Annotations) : Decidable (sameLengths a) := by
  unfold sameLengths; infer_instance

/-- Result of np.array(x, dtype=float) classified by dimensionality, as the
constructor only inspects ndim and the flat content for 1-D input. -/
inductive PyArr where
  | d0 (x : ℚ)
  | d1 (l : List ℚ)
  | d2 (l : List (List ℚ))
  deriving DecidableEq

/-- ndim of a numpy array. -/
def PyArr.ndim : PyArr → ℕ
  | .d0 _ => 0
  | .d1 _ => 1
  | .d2 _ => 2

/-- The description argument of the constructor: a single string (to be
broadcast) or a sequence of strings. -/
inductive DescArg where
  | str (s : String)
  | list (l : List String)
  deriving DecidableEq

/-- Python (';' in desc) for a single character: membership of the character
in the string. -/
def hasSemicolon (s : String) : Bool := s.data.any (fun c => c = ';')

/-- Annotations.__init__ (annotations.py lines 142-171): onset 1-D check,
broadcast of a single-string description to len(onset), duration 1-D check,
equal-lengths check, semicolon check.  A scalar orig_time passes through
float() unchanged, so it is modelled as the Option value itself. -/
def annot_init (onset duration : PyArr) (description : DescArg)
    (orig_time : Option ℚ) : Except String Annotations :=
  match onset with
  | .d0 _ => .error "Onset must be a one dimensional array."
  | .d2 _ => .error "Onset must be a one dimensional array."
  | .d1 onsetL =>
    let descL := match description with
      | .str s => List.replicate onsetL.length s
      | .list l => l
    match duration with
    | .d0 _ => .error "Duration must be a one dimensional array."
    | .d2 _ => .error "Duration must be a one dimensional array."
    | .d1 durationL =>
      if onsetL.length = durationL.length ∧ durationL.length = descL.length then
        if descL.any hasSemicolon then
          .error "Semicolons in descriptions not supported."
        else
          .ok ⟨orig_time, onsetL, durationL, descL⟩
      else .error "Onset, duration and description must be equal in sizes."

/-- Annotations.append (lines 209-231): np.append of each argument to the
corresponding array; np.append flattens, so batched arguments simply
concatenate (a scalar is the one-element list). -/
def Annotations.append (a : Annotations) (onset duration : List ℚ)
    (description : List String) : Annotations :=
  ⟨a.orig_time, a.onset ++ onset, a.duration ++ duration,
   a.description ++ description⟩

/-- np.delete(l, idxs): remove the elements at the given indices, keeping
relative order. -/
def np_delete_aux {α : Type} : List α → ℕ → List ℕ → List α
  | [], _, _ => []
  | x :: xs, i, idxs =>
    if i ∈ idxs then np_delete_aux xs (i + 1) idxs
    else x :: np_delete_aux xs (i + 1) idxs

/-- np.delete from index 0. -/
def np_delete {α : Type} (l : List α) (idxs : List ℕ) : List α :=
  np_delete_aux l 0 idxs

/-- Annotations.delete (lines 237-247): np.delete applied to all three
arrays. -/
def Annotations.delete (a : Annotations) (idxs : List ℕ) : Annotations :=
  ⟨a.orig_time, np_delete a.onset idxs, np_delete a.duration idxs,
   np_delete a.description idxs⟩

/-- Annotations.__iadd__ (lines 195-207): an empty left operand (len uses
self.duration) first adopts the other operand's orig_time; differing
orig_time is a ValueError; otherwise append the other operand's arrays.
Annotations.__add__ is copy() followed by this, hence the same pure
function. -/
def Annotations.iadd (a b : Annotations) : Except String Annotations :=
  let a := if a.duration.length = 0 then { a with orig_time := b.orig_time } else a
  if a.orig_time = b.orig_time then
    .ok ⟨a.orig_time, a.onset ++ b.onset, a.duration ++ b.duration,
         a.description ++ b.description⟩
  else
    .error "orig_time should be the same to add/concatenate 2 annotations"

/-- A meas_date value before normalization: a scalar, a one-element
sequence, or a (seconds, microseconds) pair. -/
inductive TimeVal where
  | scalar (q : ℚ)
  | single (a : ℚ)
  | pair (a b : ℚ)
  deriving DecidableEq

/-- _handle_meas_date (lines 359-368): None becomes 0, a pair becomes
seconds + microseconds / 1e6, a one-element sequence or scalar becomes its
value. -/
def _handle_meas_date : Option TimeVal → ℚ
  | none => 0
  | some (.scalar q) => q
  | some (.single a) => a
  | some (.pair a b) => a + b / 1000000

/-- _combine_annotations (lines 330-356): None/None gives None, an absent
second set returns the first verbatim, an absent first set is replaced by an
empty origin-less Annotations; then shift = one_n_samples / sfreq, corrected
by one_first_samp / sfreq + (meas_date - one.orig_time) when one.orig_time
is set and by -(two_first_samp / sfreq + (meas_date - two.orig_time)) when
two.orig_time is set; the second onsets are shifted, everything is
concatenated, the result keeps one.orig_time. -/
def _combine_annotations :
    Option Annotations → Option Annotations → ℚ → ℚ → ℚ → ℚ →
    Option TimeVal → Option Annotations
  | none, none, _, _, _, _, _ => none
  | some one, none, _, _, _, _, _ => some one
  | one?, some two, one_n_samples, one_first_samp, two_first_samp, sfreq, meas_date =>
    let one := one?.getD ⟨none, [], [], []⟩
    let m := _handle_meas_date meas_date
    let shift0 := one_n_samples / sfreq
    let shift1 := match one.orig_time with
      | some ot => shift0 + one_first_samp / sfreq + (m - ot)
      | none => shift0
    let shift := match two.orig_time with
      | some tt => shift1 - two_first_samp / sfreq - (m - tt)
      | none => shift1
    some ⟨one.orig_time,
          one.onset ++ two.onset.map (fun o => o + shift),
          one.duration ++ two.duration,
          one.description ++ two.description⟩

/-- numpy ndarray.min() on a possibly empty array: raises on an empty
array. -/
def npMin : List ℚ → Except String ℚ
  | [] => .error "zero-size array to reduction operation minimum which has no identity"
  | x :: xs => .ok (xs.foldl min x)

/-- numpy ndarray.max() on a possibly empty array: raises on an empty
array. -/
def npMax : List ℚ → Except String ℚ
  | [] => .error "zero-size array to reduction operation maximum which has no identity"
  | x :: xs => .ok (xs.foldl max x)

/-- ndarray.compress(~mask): keep the elements whose mask entry is false. -/
def compress {α : Type} : List α → List Bool → List α
  | x :: xs, b :: bs => if b then compress xs bs else x :: compress xs bs
  | _, _ => []

/-- The vectorized body of Annotations.crop (lines 299-315), after the
bounds have been resolved and validated: the out_of_bounds / clip_left /
clip_right masks, the two masked updates of onset and duration (both diffs
are computed from the absolute onsets/ends taken before any update, exactly
as the numpy code does), and the final compress of all three arrays. -/
def cropCore (offset tmin tmax : ℚ) (onset duration : List ℚ)
    (description : List String) : List ℚ × List ℚ × List String :=
  let absolute_onset := onset.map (fun o => o + offset)
  let absolute_offset := List.zipWith (fun o d => o + d) absolute_onset duration
  let out_of_bounds :=
    List.zipWith (fun o e => decide (o > tmax) || decide (e < tmin))
      absolute_onset absolute_offset
  let clip_left :=
    List.zipWith (fun o b => decide (o < tmin) && !b) absolute_onset out_of_bounds
  let onset1 := List.zipWith (fun o c => if c then tmin - offset else o) onset clip_left
  let duration1 :=
    List.zipWith (fun d p => if p.2 then d - (tmin - p.1) else d)
      duration (absolute_onset.zip clip_left)
  let clip_right :=
    List.zipWith (fun e b => decide (e > tmax) && !b) absolute_offset out_of_bounds
  let duration2 :=
    List.zipWith (fun d p => if p.2 then d - (p.1 - tmax) else d)
      duration1 (absolute_offset.zip clip_right)
  (compress onset1 out_of_bounds, compress duration2 out_of_bounds,
   compress description out_of_bounds)

/-- Resolution of crop's tmin default (line 290): the given value, or the
minimum absolute onset. -/
def resolveTmin (a : Annotations) (tmin? : Option ℚ) : Except String ℚ :=
  match tmin? with
  | some t => .ok t
  | none =>
    let offset := a.orig_time.getD 0
    npMin (a.onset.map (fun o => o + offset))

/-- Resolution of crop's tmax default (line 291): the given value, or the
maximum absolute end. -/
def resolveTmax (a : Annotations) (tmax? : Option ℚ) : Except String ℚ :=
  match tmax? with
  | some t => .ok t
  | none =>
    let offset := a.orig_time.getD 0
    let absolute_onset := a.onset.map (fun o => o + offset)
    npMax (List.zipWith (fun o d => o + d) absolute_onset a.duration)

/-- Annotations.crop (lines 266-327): resolve the bounds (tmin first, as in
the source), raise for tmin > tmax, then for tmin < 0, then run the
vectorized clipping/compression body.  The emitted warnings are a side
channel and are not modelled. -/
def Annotations.crop (a : Annotations) (tmin? tmax? : Option ℚ) :
    Except String Annotations :=
  match resolveTmin a tmin? with
  | .error e => .error e
  | .ok tmin =>
    match resolveTmax a tmax? with
    | .error e => .error e
    | .ok tmax =>
      if tmin > tmax then .error "tmax should be greater than tmin."
      else if tmin < 0 then .error "tmin should be positive."
      else
        let offset := a.orig_time.getD 0
        let r := cropCore offset tmin tmax a.onset a.duration a.description
        .ok ⟨a.orig_time, r.1, r.2.1, r.2.2⟩

/-- One row of the crop algorithm as the specification states it: drop the
row when absolute_onset > tmax or absolute_end < tmin; otherwise raise the
onset to tmin - offset (shrinking the duration by the same amount) when
absolute_onset < tmin, and shrink the duration so the end lands at tmax when
absolute_end > tmax. -/
def cropRowSpec (offset tmin tmax : ℚ) (r : ℚ × ℚ × String) :
    Option (ℚ × ℚ × String) :=
  let ao := r.1 + offset
  let ae := ao + r.2.1
  if ao > tmax ∨ ae < tmin then none
  else
    let o2 := if ao < tmin then tmin - offset else r.1
    let d2 := if ao < tmin then r.2.1 - (tmin - ao) else r.2.1
    let d3 := if ae > tmax then d2 - (ae - tmax) else d2
    some (o2, d3, r.2.2)

/-- The crop algorithm as the specification states it, row by row. -/
def cropSpecRows (offset tmin tmax : ℚ) (rows : List (ℚ × ℚ × String)) :
    List (ℚ × ℚ × String) :=
  rows.filterMap (cropRowSpec offset tmin tmax)

/-- The invert branch of _annotations_starts_stops (lines 407-416), acting
on the sorted matched start/stop index arrays (the matching, syncing and
index conversion upstream of it go through the external recording
collaborator): prepend a (0, 0) boundary when there is no match or the
first match does not start at 0; append an (n_times, n_times) boundary when
the stop array has length one or its last entry is not n_times; return
(ends[:-1], onsets[1:]). -/
def invertWindows (onsets ends : List ℕ) (n_times : ℕ) : List ℕ × List ℕ :=
  let p1 : List ℕ × List ℕ :=
    if onsets.length = 0 ∨ onsets.headD 0 ≠ 0 then (0 :: onsets, 0 :: ends)
    else (onsets, ends)
  let p2 : List ℕ × List ℕ :=
    if p1.2.length = 1 ∨ p1.2.getLastD 0 ≠ n_times then
      (p1.1 ++ [n_times], p1.2 ++ [n_times])
    else (p1.1, p1.2)
  (p2.2.dropLast, p2.1.tail)

/-- The inverted extraction as the claim states it: insert a leading
zero-length boundary exactly when the first match does not start at index 0,
insert a trailing one exactly when the last match does not reach n_samples,
then take the consecutive (end i, onset (i+1)) pairs. -/
def specComplement (onsets ends : List ℕ) (n : ℕ) : List ℕ × List ℕ :=
  let lead : Bool := !(onsets.head? = some 0 : Bool)
  let trail : Bool := !(ends.getLast? = some n : Bool)
  let os := (if lead then [0] else []) ++ onsets ++ (if trail then [n] else [])
  let es := (if lead then [0] else []) ++ ends ++ (if trail then [n] else [])
  (es.dropLast, os.tail)

/-- The event_id argument of events_from_annotations: an explicit mapping or
a callable.  The None case (the auto-assigning counter) is kept as the
missing Option. -/
inductive EventIdArg where
  | dict (m : List (String × Int))
  | fn (f : String → Option Int)

/-- The event_id component of the returned pair: the input passed through
unchanged on the empty-annotations early return, or the resolved map. -/
inductive EventsMapOut where
  | passthrough (e : Option EventIdArg)
  | resolved (m : List (String × Int))

/-- The description-resolution loop of events_from_annotations (lines
586-603): for each description in order, skip it when already resolved,
skip it when the compiled pattern does not match, then resolve: an explicit
dict keeps only present keys (others silently skipped), a callable keeps
the descriptions it maps to a value, and a missing event_id draws from an
auto-incrementing counter.  The counter itself lives in an external utils
module; it is modelled from the spec: an auto-incrementing assignment of
fresh integer codes to novel descriptions (starting value chosen as 1). -/
def buildEventIdMap (p : String → Bool) (arg : Option EventIdArg) :
    List String → List (String × Int) → Int → List (String × Int)
  | [], acc, _ => acc
  | d :: ds, acc, next =>
    if (acc.lookup d).isSome then buildEventIdMap p arg ds acc next
    else if p d then
      match arg with
      | some (.dict m) =>
        match m.lookup d with
        | some v => buildEventIdMap p arg ds (acc ++ [(d, v)]) next
        | none => buildEventIdMap p arg ds acc next
      | some (.fn f) =>
        match f d with
        | some v => buildEventIdMap p arg ds (acc ++ [(d, v)]) next
        | none => buildEventIdMap p arg ds acc next
      | none => buildEventIdMap p arg ds (acc ++ [(d, next)]) (next + 1)
    else buildEventIdMap p arg ds acc next

/-- events_from_annotations (lines 536-619).  The sample indices inds are
the result of raw.time_as_index(onset, ...) + raw.first_samp, computed by
the external recording collaborator, so they are taken as an input list
parallel to the annotations.  A missing regexp compiles to a
match-everything pattern; the compiled pattern is abstracted as a Boolean
predicate on descriptions.  The selection keeps the rows whose description
resolved to a code, the error is raised exactly when the selection is empty
and a regexp was explicitly supplied, and each surviving row yields
(index, 0, code). -/
def events_from_annotations (a : Annotations) (inds : List Int)
    (event_id : Option EventIdArg) (regexp : Option (String → Bool)) :
    Except String (List (Int × Int × Int) × EventsMapOut) :=
  if a.duration.length = 0 then .ok ([], .passthrough event_id)
  else
    let p := match regexp with
      | none => fun _ => true
      | some f => f
    let eid := buildEventIdMap p event_id a.description [] 1
    let event_sel := (a.description.zip inds).filter (fun q => (eid.lookup q.1).isSome)
    if event_sel.length = 0 ∧ regexp.isSome then
      .error "Could not find any of the events you specified."
    else
      .ok (event_sel.map (fun q => (q.2, (0 : Int), (eid.lookup q.1).getD 0)),
           .resolved eid)

/-- Single-character str.replace for write: a colon becomes a semicolon. -/
def escChar (c : Char) : Char := if c = ':' then ';' else c

/-- Single-character str.replace for read: a semicolon becomes a colon. -/
def unescChar (c : Char) : Char := if c = ';' then ':' else c

/-- Python str.join with a colon separator, at the character-list level. -/
def joinChars : List (List Char) → List Char
  | [] => []
  | [p] => p
  | p :: ps => p ++ ':' :: joinChars ps

/-- Python str.split on a colon, at the character-list level (the split of
the empty string is the one-element list holding the empty string). -/
def splitChar : List Char → List (List Char)
  | [] => [[]]
  | c :: cs =>
    if c = ':' then [] :: splitChar cs
    else
      match splitChar cs with
      | [] => [[c]]
      | p :: ps => (c :: p) :: ps

/-- The annotations block of the tagged container, as written by
_write_annotations (lines 419-431): the onset array under the baseline-min
tag, onset+duration under the baseline-max tag, the escaped colon-joined
description list under the comment tag, the origin under the meas-date tag
only when present.  The tag/value writers themselves live in the external
io module; they are modelled from the spec: typed values stored under
integer field tags, here as record fields, with an empty payload stored as
an absent tag (the reader's None defaults). -/
structure AnnotRecord where
  baseline_min : List ℚ
  baseline_max : List ℚ
  comment : Option (List Char)
  meas_date : Option ℚ
  deriving DecidableEq

/-- _write_annotations (lines 419-431). -/
def _write_annotations (a : Annotations) : AnnotRecord :=
  { baseline_min := a.onset
  , baseline_max := List.zipWith (fun d o => d + o) a.duration a.onset
  , comment :=
      if a.description.isEmpty then none
      else some (joinChars (a.description.map (fun d => d.data.map escChar)))
  , meas_date := a.orig_time }

/-- _read_annotations (lines 494-522): onset from the baseline-min tag,
duration as baseline-max data minus onset, descriptions by splitting the
comment blob on the colon and unescaping semicolons, origin from the
meas-date tag when present (None otherwise); assert the three lengths
agree, then build the Annotations object through its constructor. -/
def _read_annotations (r : AnnotRecord) : Except String Annotations :=
  let onset := r.baseline_min
  let duration := List.zipWith (fun m o => m - o) r.baseline_max onset
  let description := match r.comment with
    | none => []
    | some blob => (splitChar blob).map (fun p => String.mk (p.map unescChar))
  if onset.length = duration.length ∧ duration.length = description.length then
    annot_init (.d1 onset) (.d1 duration) (.list description) r.meas_date
  else .error "assert len(onset) == len(duration) == len(description)"

/-- The cross-recording shift exactly as the claim words it:
shift = A_n_samples / sample_rate, plus
A_first_samp / sample_rate + normalize(M) - A.origin when A.origin is set,
minus B_first_samp / sample_rate + normalize(M) - B.origin when B.origin is
set. -/
def claimShift (aOrig bOrig : Option ℚ)
    (one_n_samples one_first_samp two_first_samp sfreq : ℚ)
    (md : Option TimeVal) : ℚ :=
  one_n_samples / sfreq
  + (match aOrig with
     | some ot => one_first_samp / sfreq + _handle_meas_date md - ot
     | none => 0)
  - (match bOrig with
     | some tt => two_first_samp / sfreq + _handle_meas_date md - tt
     | none => 0)

end MneAnnot

namespace MneAnnot

/-- Claim C1, counterexample: the claim says that when exactly one input set
is absent the merge returns the non-absent one verbatim, but when the FIRST
set is absent the code substitutes a synthetic empty origin-less set and
still shifts the second set's onsets by A_n_samples / sample_rate, so the
result is not B verbatim (here B's onset 0.5 becomes 10.5). -/
theorem C1_counterexample :
    _combine_annotations none (some ⟨none, [1/2], [0], ["b"]⟩) 1000 0 0 100 none
      ≠ some ⟨none, [1/2], [0], ["b"]⟩ := by
  have hL : _combine_annotations none (some ⟨none, [1/2], [0], ["b"]⟩) 1000 0 0 100 none
      = some ⟨none, [1/2 + 1000/100], [0], ["b"]⟩ := rfl
  rw [hL]
  intro h
  simp only [Option.some.injEq, Annotations.mk.injEq, List.cons.injEq] at h
  have h2 : (1 : ℚ)/2 + 1000/100 = 1/2 := h.2.1.1
  norm_num at h2

/-- Claim C1 as amended: if both inputs are absent the result is None; if B
is absent the result is A verbatim; if B is present (A present or absent,
an absent A being replaced by a synthetic empty origin-less set), the merged
onsets are A.onset ++ (B.onset + shift) with shift as the claim words it,
durations and descriptions concatenate unchanged, and the result's origin
is A.origin; in particular the origin-less concrete example merges onset
[1.0] and [0.5] into [1.0, 10.5]. -/
theorem C1_amended :
    (∀ n fs1 fs2 sf md, _combine_annotations none none n fs1 fs2 sf md = none)
  ∧ (∀ (a : Annotations) (n fs1 fs2 sf : ℚ) md,
      _combine_annotations (some a) none n fs1 fs2 sf md = some a)
  ∧ (∀ (one? : Option Annotations) (two : Annotations) (n fs1 fs2 sf : ℚ) md,
      _combine_annotations one? (some two) n fs1 fs2 sf md =
        some ⟨(one?.getD ⟨none, [], [], []⟩).orig_time,
              (one?.getD ⟨none, [], [], []⟩).onset
                ++ two.onset.map (fun o =>
                     o + claimShift (one?.getD ⟨none, [], [], []⟩).orig_time
                           two.orig_time n fs1 fs2 sf md),
              (one?.getD ⟨none, [], [], []⟩).duration ++ two.duration,
              (one?.getD ⟨none, [], [], []⟩).description ++ two.description⟩)
  ∧ (_combine_annotations (some ⟨none, [1], [0], ["a"]⟩)
        (some ⟨none, [1/2], [0], ["b"]⟩) 1000 0 0 100 none
      = some ⟨none, [1, 21/2], [0, 0], ["a", "b"]⟩) := by
  have hconc : _combine_annotations (some ⟨none, [1], [0], ["a"]⟩)
      (some ⟨none, [1/2], [0], ["b"]⟩) 1000 0 0 100 none
      = some ⟨none, [1, 1/2 + 1000/100], [0, 0], ["a", "b"]⟩ := rfl
  have hval : (1 : ℚ)/2 + 1000/100 = 21/2 := by norm_num
  refine ⟨fun _ _ _ _ _ => rfl, fun _ _ _ _ _ _ => rfl, ?_, by rw [hconc, hval]⟩
  intro one? two n fs1 fs2 sf md
  have key : ∀ (one : Annotations),
      _combine_annotations (some one) (some two) n fs1 fs2 sf md =
        some ⟨one.orig_time,
              one.onset ++ two.onset.map (fun o =>
                o + claimShift one.orig_time two.orig_time n fs1 fs2 sf md),
              one.duration ++ two.duration,
              one.description ++ two.description⟩ := by
    intro one
    have hsh : ∀ s₁ s₂ : ℚ, s₁ = s₂ →
        two.onset.map (fun o => o + s₁) = two.onset.map (fun o => o + s₂) := by
      intro s₁ s₂ h; rw [h]
    have lhs_eq : _combine_annotations (some one) (some two) n fs1 fs2 sf md =
        some ⟨one.orig_time,
              one.onset ++ two.onset.map (fun o => o +
                (match two.orig_time with
                 | some tt =>
                   (match one.orig_time with
                    | some ot => n / sf + fs1 / sf + (_handle_meas_date md - ot)
                    | none => n / sf) - fs2 / sf - (_handle_meas_date md - tt)
                 | none =>
                   match one.orig_time with
                   | some ot => n / sf + fs1 / sf + (_handle_meas_date md - ot)
                   | none => n / sf)),
              one.duration ++ two.duration,
              one.description ++ two.description⟩ := rfl
    clear hsh
    rw [lhs_eq]
    rcases h1 : one.orig_time with _ | ot <;> rcases h2 : two.orig_time with _ | tt
    · simp only [h1, h2]
      rw [(by simp only [claimShift]; ring :
        claimShift none none n fs1 fs2 sf md = n / sf)]
    · simp only [h1, h2]
      rw [(by simp only [claimShift]; ring :
        claimShift none (some tt) n fs1 fs2 sf md
          = n / sf - fs2 / sf - (_handle_meas_date md - tt))]
    · simp only [h1, h2]
      rw [(by simp only [claimShift]; ring :
        claimShift (some ot) none n fs1 fs2 sf md
          = n / sf + fs1 / sf + (_handle_meas_date md - ot))]
    · simp only [h1, h2]
      rw [(by simp only [claimShift]; ring :
        claimShift (some ot) (some tt) n fs1 fs2 sf md
          = n / sf + fs1 / sf + (_handle_meas_date md - ot)
            - fs2 / sf - (_handle_meas_date md - tt))]
  cases one? with
  | some one => exact key one
  | none =>
    have hempty :
        _combine_annotations none (some two) n fs1 fs2 sf md =
          _combine_annotations (some ⟨none, [], [], []⟩) (some two) n fs1 fs2 sf md := rfl
    rw [hempty, key]
    rfl

/-- Claim C6: concatenation with + / += fails with a value error iff the
origins differ and the left-hand collection is non-empty; an empty
left-hand collection adopts the right-hand origin and succeeds; on success
the result is the structural append of the three sequences with no shift. -/
theorem C6_concat_origin_rules : ∀ a b : Annotations,
    ((∃ msg, a.iadd b = .error msg) ↔
       a.duration.length ≠ 0 ∧ a.orig_time ≠ b.orig_time)
  ∧ (a.duration.length = 0 →
      a.iadd b = .ok ⟨b.orig_time, a.onset ++ b.onset, a.duration ++ b.duration,
                      a.description ++ b.description⟩)
  ∧ (∀ r, a.iadd b = .ok r →
      r.onset = a.onset ++ b.onset ∧ r.duration = a.duration ++ b.duration ∧
        r.description = a.description ++ b.description) := by
  intro a b
  by_cases hlen : a.duration.length = 0
  · refine ⟨?_, ?_, ?_⟩
    · constructor
      · rintro ⟨msg, hmsg⟩
        exact absurd hmsg (by simp [Annotations.iadd, hlen])
      · rintro ⟨h1, _⟩; exact absurd hlen h1
    · intro _; simp [Annotations.iadd, hlen]
    · intro r hr
      have : Annotations.iadd a b =
          .ok ⟨b.orig_time, a.onset ++ b.onset, a.duration ++ b.duration,
               a.description ++ b.description⟩ := by
        simp [Annotations.iadd, hlen]
      rw [this] at hr
      cases hr
      exact ⟨rfl, rfl, rfl⟩
  · by_cases horig : a.orig_time = b.orig_time
    · refine ⟨?_, fun h => absurd h hlen, ?_⟩
      · constructor
        · rintro ⟨msg, hmsg⟩
          exact absurd hmsg (by simp [Annotations.iadd, hlen, horig])
        · rintro ⟨_, h2⟩; exact absurd horig h2
      · intro r hr
        have : Annotations.iadd a b =
            .ok ⟨a.orig_time, a.onset ++ b.onset, a.duration ++ b.duration,
                 a.description ++ b.description⟩ := by
          simp [Annotations.iadd, hlen, horig]
        rw [this] at hr
        cases hr
        exact ⟨rfl, rfl, rfl⟩
    · have herr : Annotations.iadd a b =
          .error "orig_time should be the same to add/concatenate 2 annotations" := by
        simp [Annotations.iadd, hlen, horig]
      refine ⟨?_, fun h => absurd h hlen, ?_⟩
      · constructor
        · intro _; exact ⟨hlen, horig⟩
        · intro _; exact ⟨_, herr⟩
      · intro r hr; rw [herr] at hr; cases hr

/-- Witness for C6 at a concrete input: differing origins with a non-empty
left operand fail. -/
theorem C6_witness :
    ∃ msg, Annotations.iadd ⟨some 1, [0], [0], ["x"]⟩ ⟨some 2, [], [], []⟩
      = .error msg :=
  (C6_concat_origin_rules ⟨some 1, [0], [0], ["x"]⟩ ⟨some 2, [], [], []⟩).1.mpr
    (by refine ⟨by simp, by simp⟩)

/-- Claim C7: construction fails with a shape error when onset is not 1-D,
when duration is not 1-D, or when the three lengths differ; fails with a
validation error when a description contains the semicolon separator; and a
single-string description is broadcast to len(onset) before the length
check, so it never triggers the length mismatch error. -/
theorem C7_init_validation :
    (∀ (onset duration : PyArr) (de : DescArg) (ot : Option ℚ), onset.ndim ≠ 1 →
      annot_init onset duration de ot = .error "Onset must be a one dimensional array.")
  ∧ (∀ (onL : List ℚ) (duration : PyArr) (de : DescArg) (ot : Option ℚ),
      duration.ndim ≠ 1 →
      annot_init (.d1 onL) duration de ot = .error "Duration must be a one dimensional array.")
  ∧ (∀ (onL duL : List ℚ) (l : List String) (ot : Option ℚ),
      ¬(onL.length = duL.length ∧ duL.length = l.length) →
      annot_init (.d1 onL) (.d1 duL) (.list l) ot
        = .error "Onset, duration and description must be equal in sizes.")
  ∧ (∀ (onL duL : List ℚ) (l : List String) (ot : Option ℚ),
      onL.length = duL.length → duL.length = l.length → l.any hasSemicolon = true →
      annot_init (.d1 onL) (.d1 duL) (.list l) ot
        = .error "Semicolons in descriptions not supported.")
  ∧ (∀ (onL duL : List ℚ) (s : String) (ot : Option ℚ), onL.length = duL.length →
      annot_init (.d1 onL) (.d1 duL) (.str s) ot
        ≠ .error "Onset, duration and description must be equal in sizes.") := by
  refine ⟨?_, ?_, ?_, ?_, ?_⟩
  · intro onset duration de ot h
    cases onset with
    | d0 x => rfl
    | d1 l => exact absurd rfl h
    | d2 l => rfl
  · intro onL duration de ot h
    cases duration with
    | d0 x => cases de <;> rfl
    | d1 l => exact absurd rfl h
    | d2 l => cases de <;> rfl
  · intro onL duL l ot h
    simp [annot_init, h]
  · intro onL duL l ot h1 h2 h3
    simp [annot_init, h1, h2, h3]
  · intro onL duL s ot h1 hcontra
    have hcond : onL.length = duL.length ∧
        duL.length = (List.replicate onL.length s).length := ⟨h1, by simp [h1]⟩
    have hred : annot_init (.d1 onL) (.d1 duL) (.str s) ot =
        (if onL.length = duL.length ∧
            duL.length = (List.replicate onL.length s).length then
          (if (List.replicate onL.length s).any hasSemicolon
           then Except.error "Semicolons in descriptions not supported."
           else Except.ok ⟨ot, onL, duL, List.replicate onL.length s⟩)
         else Except.error "Onset, duration and description must be equal in sizes.") := rfl
    rw [hred, if_pos hcond] at hcontra
    by_cases hsemi : (List.replicate onL.length s).any hasSemicolon = true
    · rw [if_pos hsemi] at hcontra
      exact absurd (Except.error.inj hcontra) (by decide)
    · rw [if_neg hsemi] at hcontra
      exact Except.noConfusion hcontra

/-- Witness for C7 at concrete inputs: a single-string description with
matching onset/duration lengths does not hit the length mismatch error. -/
theorem C7_witness :
    annot_init (.d1 [1]) (.d1 [2]) (.str "a") none
      ≠ .error "Onset, duration and description must be equal in sizes." :=
  C7_init_validation.2.2.2.2 [1] [2] "a" none rfl

/-- Claim C8: crop fails with a value error whenever the resolved tmin
exceeds the resolved tmax or the resolved tmin is negative (the tmin > tmax
message taking precedence), and no mutation happens: the checks precede the
clipping body, so the function returns the error without touching the
rows. -/
theorem C8_crop_bounds_error : ∀ (a : Annotations) (t1 t2 : Option ℚ) (tmin tmax : ℚ),
    resolveTmin a t1 = .ok tmin → resolveTmax a t2 = .ok tmax →
    tmin > tmax ∨ tmin < 0 →
    a.crop t1 t2 = .error
      (if tmin > tmax then "tmax should be greater than tmin."
       else "tmin should be positive.") := by
  intro a t1 t2 tmin tmax h1 h2 h3
  unfold Annotations.crop
  rw [h1, h2]
  by_cases hgt : tmin > tmax
  · simp [hgt]
  · have hlt : tmin < 0 := h3.resolve_left hgt
    simp [hgt, hlt]

/-- Witness for C8 at a concrete input: tmin = 5 > tmax = 2 fails. -/
theorem C8_witness :
    Annotations.crop ⟨none, [1], [1], ["a"]⟩ (some 5) (some 2)
      = .error "tmax should be greater than tmin." := by
  have h := C8_crop_bounds_error ⟨none, [1], [1], ["a"]⟩ (some 5) (some 2) 5 2
    rfl rfl (Or.inl (by norm_num))
  simpa using h

/-- Unfolding of the vectorized crop body on a cons cell: every numpy
chain peels off its head. -/
theorem cropCore_cons (offset tmin tmax o d : ℚ) (s : String)
    (ons du : List ℚ) (de : List String) :
    cropCore offset tmin tmax (o :: ons) (d :: du) (s :: de) =
      (let oob := decide (o + offset > tmax) || decide (o + offset + d < tmin)
       let cl := decide (o + offset < tmin) && !oob
       let o1 := if cl then tmin - offset else o
       let d1 := if cl then d - (tmin - (o + offset)) else d
       let cr := decide (o + offset + d > tmax) && !oob
       let d2 := if cr then d1 - (o + offset + d - tmax) else d1
       let rest := cropCore offset tmin tmax ons du de
       (if oob then rest.1 else o1 :: rest.1,
        if oob then rest.2.1 else d2 :: rest.2.1,
        if oob then rest.2.2 else s :: rest.2.2)) := rfl

/-- The vectorized crop body computes exactly the rowwise crop of the
specification, for aligned inputs. -/
theorem cropCore_eq_spec (offset tmin tmax : ℚ) :
    ∀ (ons du : List ℚ) (de : List String),
      ons.length = du.length → du.length = de.length →
      cropCore offset tmin tmax ons du de =
        ((cropSpecRows offset tmin tmax (ons.zip (du.zip de))).map (fun r => r.1),
         (cropSpecRows offset tmin tmax (ons.zip (du.zip de))).map (fun r => r.2.1),
         (cropSpecRows offset tmin tmax (ons.zip (du.zip de))).map (fun r => r.2.2)) := by
  intro ons
  induction ons with
  | nil =>
    intro du de h1 h2
    cases du with
    | nil =>
      cases de with
      | nil => rfl
      | cons s de => simp at h2
    | cons d du => simp at h1
  | cons o ons ih =>
    intro du de h1 h2
    cases du with
    | nil => simp at h1
    | cons d du =>
      cases de with
      | nil => simp at h2
      | cons s de =>
        have h1' : ons.length = du.length := by simpa using h1
        have h2' : du.length = de.length := by simpa using h2
        rw [cropCore_cons, ih du de h1' h2']
        simp only [List.zip_cons_cons, cropSpecRows, List.filterMap_cons]
        by_cases hoob : o + offset > tmax ∨ o + offset + d < tmin
        · have hd : (decide (o + offset > tmax) || decide (o + offset + d < tmin)) = true := by
            rcases hoob with h | h
            · simp [h]
            · simp [h]
          simp only [cropRowSpec, hd, if_pos hoob, if_true, Bool.not_true,
            Bool.and_false, Bool.false_and, Bool.and_true]
        · have hd : (decide (o + offset > tmax) || decide (o + offset + d < tmin)) = false := by
            push_neg at hoob
            simp [hoob.1, hoob.2, not_lt.mpr hoob.1]
          simp only [cropRowSpec, hd, if_neg hoob, Bool.not_false, Bool.and_true,
            if_false, Bool.false_or]
          by_cases hcl : o + offset < tmin
          · by_cases hcr : o + offset + d > tmax
            · simp [hcl, hcr]
            · simp [hcl, hcr]
          · by_cases hcr : o + offset + d > tmax
            · simp [hcl, hcr]
            · simp [hcl, hcr]

/-- Claim C2: for in-range resolved bounds, crop keeps exactly the rows the
specification keeps (dropped iff absolute_onset > tmax or absolute_end <
tmin), clipping kept rows on the left (onset raised to tmin - offset,
duration shrunk by the same amount) and on the right (duration shrunk so
the end lands at tmax), possibly on both sides. -/
theorem C2_crop_spec : ∀ (a : Annotations) (tmin tmax : ℚ),
    sameLengths a → tmin ≤ tmax → 0 ≤ tmin →
    a.crop (some tmin) (some tmax) =
      .ok ⟨a.orig_time,
           (cropSpecRows (a.orig_time.getD 0) tmin tmax
              (a.onset.zip (a.duration.zip a.description))).map (fun r => r.1),
           (cropSpecRows (a.orig_time.getD 0) tmin tmax
              (a.onset.zip (a.duration.zip a.description))).map (fun r => r.2.1),
           (cropSpecRows (a.orig_time.getD 0) tmin tmax
              (a.onset.zip (a.duration.zip a.description))).map (fun r => r.2.2)⟩ := by
  intro a tmin tmax hlen hle hpos
  have hred : a.crop (some tmin) (some tmax) =
      (if tmin > tmax then Except.error "tmax should be greater than tmin."
       else if tmin < 0 then Except.error "tmin should be positive."
       else Except.ok ⟨a.orig_time,
         (cropCore (a.orig_time.getD 0) tmin tmax a.onset a.duration a.description).1,
         (cropCore (a.orig_time.getD 0) tmin tmax a.onset a.duration a.description).2.1,
         (cropCore (a.orig_time.getD 0) tmin tmax a.onset a.duration a.description).2.2⟩) := rfl
  rw [hred, if_neg (not_lt.mpr hle), if_neg (not_lt.mpr hpos),
    cropCore_eq_spec (a.orig_time.getD 0) tmin tmax a.onset a.duration a.description
      hlen.1 hlen.2]

/-- Witness for C2 at the claim's concrete input: crop with tmin=2, tmax=5
on one origin-less annotation with onset 0 and duration 10 yields exactly
one row with onset 2 and duration 3. -/
theorem C2_witness :
    Annotations.crop ⟨none, [0], [10], ["x"]⟩ (some 2) (some 5)
      = .ok ⟨none, [2], [3], ["x"]⟩ := by
  have h := C2_crop_spec ⟨none, [0], [10], ["x"]⟩ 2 5 ⟨rfl, rfl⟩
    (by norm_num) (by norm_num)
  rw [h]
  norm_num [cropSpecRows, cropRowSpec, List.filterMap_cons, List.filterMap_nil]

/-- A non-empty list has a last element. -/
theorem getLast?_cons_some {α : Type} (e : α) (es : List α) :
    ∃ x, (e :: es).getLast? = some x := by
  induction es generalizing e with
  | nil => exact ⟨e, rfl⟩
  | cons b bs ih =>
    obtain ⟨x, hx⟩ := ih b
    exact ⟨x, by rw [List.getLast?_cons_cons, hx]⟩

/-- getLastD agrees with a known getLast?. -/
theorem getLastD_of_getLast? {α : Type} (l : List α) (x d : α)
    (h : l.getLast? = some x) : l.getLastD d = x := by
  rw [List.getLastD_eq_getLast?, h]
  rfl

/-- Claim C3, counterexample: with a single matched interval spanning the
whole axis [0, 10] on a 10-sample recording, the code inserts the trailing
boundary anyway (its condition also fires when the stop array has length
one), producing the degenerate complement [(10, 10)] where the claim's
construction produces no interval at all. -/
theorem C3_counterexample :
    invertWindows [0] [10] 10 ≠ specComplement [0] [10] 10 := by decide

/-- Claim C3 as amended: for aligned matched start/stop arrays, the
inverted extraction equals the claim's complement construction (leading
boundary iff the first match does not start at 0, trailing boundary iff the
last match does not reach n_samples, consecutive (end i, onset (i+1))
pairs), except in the single case of exactly one match spanning [0,
n_samples], where the code emits one degenerate (n_samples, n_samples)
interval. -/
theorem C3_invert_eq_spec : ∀ (onsets ends : List ℕ) (n : ℕ),
    onsets.length = ends.length → ¬(onsets = [0] ∧ ends = [n]) →
    invertWindows onsets ends n = specComplement onsets ends n := by
  intro onsets ends n hlen hx
  cases onsets with
  | nil =>
    cases ends with
    | nil => rfl
    | cons e es => simp at hlen
  | cons o os =>
    cases ends with
    | nil => simp at hlen
    | cons e es =>
      have hlen' : os.length = es.length := by simpa using hlen
      obtain ⟨x, hgl⟩ := getLast?_cons_some e es
      have hgd : (e :: es).getLastD 0 = x := getLastD_of_getLast? _ _ _ hgl
      by_cases ho : o = 0
      · subst ho
        cases es with
        | nil =>
          cases os with
          | nil =>
            have hen : e ≠ n := by
              intro h
              exact hx ⟨rfl, by rw [h]⟩
            simp [invertWindows, specComplement, hen]
          | cons o2 os2 => simp at hlen'
        | cons e2 es2 =>
          cases os with
          | nil => simp at hlen'
          | cons o2 os2 =>
            by_cases hx2 : x = n
            · subst hx2
              simp [invertWindows, specComplement, hgd, hgl]
            · simp [invertWindows, specComplement, hgd, hgl, hx2]
      · by_cases hx2 : x = n
        · subst hx2
          simp [invertWindows, specComplement, ho, hgd, hgl, List.getLastD_cons]
        · simp [invertWindows, specComplement, ho, hgd, hgl, hx2, List.getLastD_cons]

/-- Witness for C3 at the claim's concrete input: a single match spanning
[2, 5] on a 10-sample axis inverts to the complement [(0, 2), (5, 10)]. -/
theorem C3_witness :
    invertWindows [2] [5] 10 = specComplement [2] [5] 10
      ∧ invertWindows [2] [5] 10 = ([0, 5], [2, 10]) :=
  ⟨C3_invert_eq_spec [2] [5] 10 rfl (by simp), by decide⟩

/-- np.delete keeps aligned lists aligned: its result length depends only
on the input length and the index set. -/
theorem np_delete_aux_length {α β : Type} :
    ∀ (l : List α) (l2 : List β) (i : ℕ) (idxs : List ℕ),
      l.length = l2.length →
      (np_delete_aux l i idxs).length = (np_delete_aux l2 i idxs).length := by
  intro l
  induction l with
  | nil =>
    intro l2 i idxs h
    cases l2 with
    | nil => rfl
    | cons y ys => simp at h
  | cons x xs ih =>
    intro l2 i idxs h
    cases l2 with
    | nil => simp at h
    | cons y ys =>
      have h' : xs.length = ys.length := by simpa using h
      by_cases hi : i ∈ idxs
      · simp only [np_delete_aux, if_pos hi]
        exact ih ys (i + 1) idxs h'
      · simp only [np_delete_aux, if_neg hi, List.length_cons]
        rw [ih ys (i + 1) idxs h']

/-- Crop keeps the three sequences aligned. -/
theorem crop_preserves_sameLengths (a : Annotations) (t1 t2 : Option ℚ)
    (r : Annotations) (hlen : sameLengths a) (h : a.crop t1 t2 = .ok r) :
    sameLengths r := by
  unfold Annotations.crop at h
  cases hm : resolveTmin a t1 with
  | error e => simp only [hm] at h; cases h
  | ok tmin =>
    simp only [hm] at h
    cases hM : resolveTmax a t2 with
    | error e => simp only [hM] at h; cases h
    | ok tmax =>
      simp only [hM] at h
      by_cases h1 : tmin > tmax
      · rw [if_pos h1] at h; cases h
      · rw [if_neg h1] at h
        by_cases h2 : tmin < 0
        · rw [if_pos h2] at h; cases h
        · rw [if_neg h2] at h
          rw [cropCore_eq_spec (a.orig_time.getD 0) tmin tmax a.onset a.duration
            a.description hlen.1 hlen.2] at h
          cases h
          constructor <;> simp

/-- Claim C4, counterexample: append accepts batched arguments of differing
lengths without error and silently breaks the length invariant (appending
onsets [1, 2], durations [1], descriptions ["a"] to the empty set leaves
the three sequences with lengths 2, 1, 1). -/
theorem C4_counterexample :
    ¬ sameLengths (Annotations.append ⟨none, [], [], []⟩ [1, 2] [1] ["a"]) := by
  intro h
  exact absurd h.1 (by simp [Annotations.append])

/-- Claim C4 as amended: construction establishes the equal-length
invariant or fails; delete, crop and concatenation preserve it; append
preserves it for scalar or equal-length batched arguments, but batched
append arguments of differing lengths silently break it (see the
counterexample). -/
theorem C4_amended :
    (∀ (onset duration : PyArr) (de : DescArg) (ot : Option ℚ) (a : Annotations),
      annot_init onset duration de ot = .ok a → sameLengths a)
  ∧ (∀ (a : Annotations) (l1 l2 : List ℚ) (l3 : List String),
      sameLengths a → l1.length = l2.length → l2.length = l3.length →
      sameLengths (a.append l1 l2 l3))
  ∧ (∀ (a : Annotations) (idxs : List ℕ), sameLengths a →
      sameLengths (a.delete idxs))
  ∧ (∀ (a : Annotations) (t1 t2 : Option ℚ) (r : Annotations),
      sameLengths a → a.crop t1 t2 = .ok r → sameLengths r)
  ∧ (∀ (a b r : Annotations), sameLengths a → sameLengths b →
      a.iadd b = .ok r → sameLengths r) := by
  refine ⟨?_, ?_, ?_, crop_preserves_sameLengths, ?_⟩
  · intro onset duration de ot a h
    cases onset with
    | d0 x => cases h
    | d2 l => cases h
    | d1 onL =>
      cases duration with
      | d0 x => cases de <;> cases h
      | d2 l => cases de <;> cases h
      | d1 duL =>
        cases de with
        | str s =>
          by_cases hcond : onL.length = duL.length ∧
              duL.length = (List.replicate onL.length s).length
          · by_cases hsemi : (List.replicate onL.length s).any hasSemicolon = true
            · have : annot_init (.d1 onL) (.d1 duL) (.str s) ot
                  = .error "Semicolons in descriptions not supported." := by
                show (if onL.length = duL.length ∧
                    duL.length = (List.replicate onL.length s).length then _ else _) = _
                rw [if_pos hcond, if_pos hsemi]
              rw [this] at h; cases h
            · have : annot_init (.d1 onL) (.d1 duL) (.str s) ot
                  = .ok ⟨ot, onL, duL, List.replicate onL.length s⟩ := by
                show (if onL.length = duL.length ∧
                    duL.length = (List.replicate onL.length s).length then _ else _) = _
                rw [if_pos hcond, if_neg hsemi]
              rw [this] at h
              cases h
              exact hcond
          · have : annot_init (.d1 onL) (.d1 duL) (.str s) ot
                = .error "Onset, duration and description must be equal in sizes." := by
              show (if onL.length = duL.length ∧
                  duL.length = (List.replicate onL.length s).length then _ else _) = _
              rw [if_neg hcond]
            rw [this] at h; cases h
        | list l =>
          by_cases hcond : onL.length = duL.length ∧ duL.length = l.length
          · by_cases hsemi : l.any hasSemicolon = true
            · have : annot_init (.d1 onL) (.d1 duL) (.list l) ot
                  = .error "Semicolons in descriptions not supported." := by
                show (if onL.length = duL.length ∧ duL.length = l.length
                    then _ else _) = _
                rw [if_pos hcond, if_pos hsemi]
              rw [this] at h; cases h
            · have : annot_init (.d1 onL) (.d1 duL) (.list l) ot
                  = .ok ⟨ot, onL, duL, l⟩ := by
                show (if onL.length = duL.length ∧ duL.length = l.length
                    then _ else _) = _
                rw [if_pos hcond, if_neg hsemi]
              rw [this] at h
              cases h
              exact hcond
          · have : annot_init (.d1 onL) (.d1 duL) (.list l) ot
                = .error "Onset, duration and description must be equal in sizes." := by
              show (if onL.length = duL.length ∧ duL.length = l.length
                  then _ else _) = _
              rw [if_neg hcond]
            rw [this] at h; cases h
  · intro a l1 l2 l3 ha h12 h23
    exact ⟨by simp [Annotations.append, ha.1, h12],
           by simp [Annotations.append, ha.2, h23]⟩
  · intro a idxs ha
    exact ⟨np_delete_aux_length a.onset a.duration 0 idxs ha.1,
           np_delete_aux_length a.duration a.description 0 idxs ha.2⟩
  · intro a b r ha hb h
    by_cases hlen0 : a.duration.length = 0
    · have : a.iadd b = .ok ⟨b.orig_time, a.onset ++ b.onset,
          a.duration ++ b.duration, a.description ++ b.description⟩ := by
        simp [Annotations.iadd, hlen0]
      rw [this] at h
      cases h
      exact ⟨by simp [ha.1, hb.1], by simp [ha.2, hb.2]⟩
    · by_cases horig : a.orig_time = b.orig_time
      · have : a.iadd b = .ok ⟨a.orig_time, a.onset ++ b.onset,
            a.duration ++ b.duration, a.description ++ b.description⟩ := by
          simp [Annotations.iadd, hlen0, horig]
        rw [this] at h
        cases h
        exact ⟨by simp [ha.1, hb.1], by simp [ha.2, hb.2]⟩
      · have : a.iadd b
            = .error "orig_time should be the same to add/concatenate 2 annotations" := by
          simp [Annotations.iadd, hlen0, horig]
        rw [this] at h
        cases h

/-- Witness for C4 at concrete inputs: an equal-length batched append
preserves the invariant. -/
theorem C4_witness :
    sameLengths (Annotations.append ⟨none, [1], [1], ["a"]⟩ [2] [3] ["b"]) :=
  C4_amended.2.1 ⟨none, [1], [1], ["a"]⟩ [2] [3] ["b"] ⟨rfl, rfl⟩ rfl rfl

/-- Subtracting the onsets back out of the stored end times recovers the
durations. -/
theorem zipWith_sub_add (du ons : List ℚ) (h : du.length = ons.length) :
    List.zipWith (fun m o => m - o)
      (List.zipWith (fun d o => d + o) du ons) ons = du := by
  induction du generalizing ons with
  | nil => rfl
  | cons d ds ih =>
    cases ons with
    | nil => simp at h
    | cons o os =>
      have h' : ds.length = os.length := by simpa using h
      simp [ih os h']

/-- The escape map never produces a colon. -/
theorem escChar_ne_colon (c : Char) : escChar c ≠ ':' := by
  unfold escChar
  by_cases h : c = ':'
  · rw [if_pos h]; decide
  · rw [if_neg h]; exact h

/-- An escaped description has no colon left in it. -/
theorem colon_not_mem_map_escChar (l : List Char) : ':' ∉ l.map escChar := by
  intro h
  obtain ⟨c, _, hc⟩ := List.mem_map.mp h
  exact escChar_ne_colon c hc

/-- The unescape map never produces a semicolon. -/
theorem unescChar_ne_semicolon (c : Char) : unescChar c ≠ ';' := by
  unfold unescChar
  by_cases h : c = ';'
  · rw [if_pos h]; decide
  · rw [if_neg h]; exact h

/-- Unescaping inverts escaping away from the reserved semicolon. -/
theorem unescChar_escChar (c : Char) (h : c ≠ ';') : unescChar (escChar c) = c := by
  unfold escChar unescChar
  by_cases h1 : c = ':'
  · rw [if_pos h1, if_pos rfl]
    exact h1.symm
  · rw [if_neg h1, if_neg h]

/-- Splitting a colon-free piece returns just that piece. -/
theorem splitChar_no_colon : ∀ (p : List Char), ':' ∉ p → splitChar p = [p] := by
  intro p
  induction p with
  | nil => intro _; rfl
  | cons c cs ih =>
    intro h
    have hc : ¬ c = ':' := by
      intro hh; subst hh; exact h (List.mem_cons_self _ _)
    have htail : ':' ∉ cs := fun hh => h (List.mem_cons_of_mem _ hh)
    simp only [splitChar, if_neg hc, ih htail]

/-- Splitting past a colon-free piece peels it off. -/
theorem splitChar_append : ∀ (p rest : List Char), ':' ∉ p →
    splitChar (p ++ ':' :: rest) = p :: splitChar rest := by
  intro p
  induction p with
  | nil => intro rest _; simp [splitChar]
  | cons c cs ih =>
    intro rest h
    have hc : ¬ c = ':' := by
      intro hh; subst hh; exact h (List.mem_cons_self _ _)
    have htail : ':' ∉ cs := fun hh => h (List.mem_cons_of_mem _ hh)
    simp only [List.cons_append, splitChar, if_neg hc, List.append_eq, ih rest htail]

/-- Splitting a colon-join of colon-free pieces recovers the pieces. -/
theorem splitChar_joinChars : ∀ (ps : List (List Char)), ps ≠ [] →
    (∀ p ∈ ps, ':' ∉ p) → splitChar (joinChars ps) = ps := by
  intro ps
  induction ps with
  | nil => intro h _; exact absurd rfl h
  | cons p ps ih =>
    intro _ hmem
    cases ps with
    | nil =>
      show splitChar (joinChars [p]) = [p]
      rw [show joinChars [p] = p from rfl]
      exact splitChar_no_colon p (hmem p (List.mem_cons_self _ _))
    | cons q qs =>
      have hj : joinChars (p :: q :: qs) = p ++ ':' :: joinChars (q :: qs) := rfl
      rw [hj, splitChar_append p _ (hmem p (List.mem_cons_self _ _)),
        ih (by simp) (fun r hr => hmem r (List.mem_cons_of_mem _ hr))]

/-- A semicolon-free description survives the escape/unescape round trip. -/
theorem desc_roundtrip (d : String) (h : hasSemicolon d = false) :
    String.mk ((d.data.map escChar).map unescChar) = d := by
  have hchars : ∀ c ∈ d.data, c ≠ ';' := by
    unfold hasSemicolon at h
    rw [List.any_eq_false] at h
    intro c hc hcc
    exact h c hc (decide_eq_true hcc)
  rw [List.map_map]
  have hcongr : d.data.map (unescChar ∘ escChar) = d.data.map id :=
    List.map_congr_left (fun c hc => unescChar_escChar c (hchars c hc))
  rw [hcongr, List.map_id]

/-- A string read back from the container never contains a semicolon, so
the constructor's semicolon check passes on read. -/
theorem hasSemicolon_map_unesc (p : List Char) :
    hasSemicolon (String.mk (p.map unescChar)) = false := by
  unfold hasSemicolon
  rw [show (String.mk (p.map unescChar)).data = p.map unescChar from rfl,
    List.any_eq_false]
  intro x hx
  obtain ⟨c, _, rfl⟩ := List.mem_map.mp hx
  intro hdec
  exact unescChar_ne_semicolon c (of_decide_eq_true hdec)

/-- Claim C9: writing a valid annotation set (no semicolons in the
descriptions) to the tagged container and reading it back recovers the
onsets exactly, the durations exactly (end values minus onsets), the
descriptions exactly through the colon-to-semicolon escaping and its
inverse, and the origin exactly, with an absent origin reconstructed as
None rather than zero. -/
theorem C9_roundtrip : ∀ a : Annotations, sameLengths a →
    (∀ d ∈ a.description, hasSemicolon d = false) →
    _read_annotations (_write_annotations a) = .ok a := by
  intro a hlen hsemi
  obtain ⟨ot, ons, dur, des⟩ := a
  have h1 : ons.length = dur.length := hlen.1
  have h2 : dur.length = des.length := hlen.2
  have hdur : List.zipWith (fun m o => m - o)
      (List.zipWith (fun d o => d + o) dur ons) ons = dur :=
    zipWith_sub_add dur ons h1.symm
  cases des with
  | nil =>
    obtain rfl : dur = [] := List.length_eq_zero.mp (by rw [h2]; rfl)
    obtain rfl : ons = [] := List.length_eq_zero.mp (by rw [h1]; rfl)
    rfl
  | cons d0 ds =>
    have hw : _write_annotations ⟨ot, ons, dur, d0 :: ds⟩ =
        ⟨ons, List.zipWith (fun d o => d + o) dur ons,
         some (joinChars ((d0 :: ds).map (fun d => d.data.map escChar))), ot⟩ := rfl
    have hsplit : splitChar (joinChars ((d0 :: ds).map (fun d => d.data.map escChar)))
        = (d0 :: ds).map (fun d => d.data.map escChar) := by
      apply splitChar_joinChars
      · simp
      · intro p hp
        obtain ⟨d, _, rfl⟩ := List.mem_map.mp hp
        exact colon_not_mem_map_escChar d.data
    have hdesc : (((d0 :: ds).map (fun d => d.data.map escChar)).map
        (fun p => String.mk (p.map unescChar))) = d0 :: ds := by
      rw [List.map_map]
      have : (d0 :: ds).map
          ((fun p => String.mk (p.map unescChar)) ∘ (fun d => d.data.map escChar))
          = (d0 :: ds).map id :=
        List.map_congr_left (fun d hd => desc_roundtrip d (hsemi d hd))
      rw [this, List.map_id]
    rw [hw]
    unfold _read_annotations
    simp only [hdur, hsplit, hdesc]
    rw [if_pos ⟨h1, h2⟩]
    have hany : ¬ (d0 :: ds).any hasSemicolon = true := by
      rw [List.any_eq_true]
      rintro ⟨d, hd, hsd⟩
      rw [hsemi d hd] at hsd
      cases hsd
    show (if ons.length = dur.length ∧ dur.length = (d0 :: ds).length
        then _ else _) = _
    rw [if_pos ⟨h1, h2⟩, if_neg hany]

/-- Witness for C9 at a concrete input: a set with a colon in a
description, a duration, and an absent origin survives the round trip. -/
theorem C9_witness :
    _read_annotations (_write_annotations ⟨none, [1], [2], ["a:b"]⟩)
      = .ok ⟨none, [1], [2], ["a:b"]⟩ :=
  C9_roundtrip ⟨none, [1], [2], ["a:b"]⟩ ⟨rfl, rfl⟩ (by decide)

/-- Appending to an association list looks up in the prefix first. -/
theorem lookup_append_my (l1 l2 : List (String × Int)) (k : String) :
    (l1 ++ l2).lookup k =
      (match l1.lookup k with
       | some v => some v
       | none => l2.lookup k) := by
  induction l1 with
  | nil => rfl
  | cons a l1 ih =>
    obtain ⟨x, v⟩ := a
    cases hbe : (k == x) with
    | true => simp only [List.cons_append, List.lookup, hbe]
    | false =>
      simp only [List.cons_append, List.lookup, hbe]
      exact ih

/-- Dropping the head of the occurrence list does not change the matching
condition for a different description. -/
theorem mem_head_cond_iff {d d' : String} {ds : List String} {p : String → Bool}
    (hne : d ≠ d') :
    (d ∈ d' :: ds ∧ p d = true) ↔ (d ∈ ds ∧ p d = true) := by
  constructor
  · rintro ⟨hm, hp⟩
    rcases List.mem_cons.mp hm with h | h
    · exact absurd h hne
    · exact ⟨h, hp⟩
  · rintro ⟨hm, hp⟩
    exact ⟨List.mem_cons_of_mem _ hm, hp⟩

/-- Lookup in the map built by the dict branch of the resolution loop: an
already-resolved description keeps its value; a fresh one is present iff it
occurs, matches the pattern and is a key of the dict. -/
theorem buildDict_lookup (p : String → Bool) (m : List (String × Int)) :
    ∀ (ds : List String) (acc : List (String × Int)) (next : Int) (d : String),
      (buildEventIdMap p (some (.dict m)) ds acc next).lookup d =
        (match acc.lookup d with
         | some v => some v
         | none => if d ∈ ds ∧ p d = true then m.lookup d else none) := by
  intro ds
  induction ds with
  | nil =>
    intro acc next d
    show acc.lookup d = _
    cases acc.lookup d <;> simp
  | cons d' ds ih =>
    intro acc next d
    by_cases hd' : (acc.lookup d').isSome = true
    · have hstep : buildEventIdMap p (some (.dict m)) (d' :: ds) acc next
          = buildEventIdMap p (some (.dict m)) ds acc next := by
        simp [buildEventIdMap, hd']
      rw [hstep, ih acc next d]
      by_cases he : d = d'
      · subst he
        obtain ⟨v, hv⟩ := Option.isSome_iff_exists.mp hd'
        simp only [hv]
      · cases hacc : acc.lookup d with
        | some v => rfl
        | none => simp only [mem_head_cond_iff he]
    · have hdn : acc.lookup d' = none := by
        cases h : acc.lookup d' with
        | none => rfl
        | some v => rw [h] at hd'; simp at hd'
      by_cases hp' : p d' = true
      · cases hm' : m.lookup d' with
        | some v =>
          have hstep : buildEventIdMap p (some (.dict m)) (d' :: ds) acc next
              = buildEventIdMap p (some (.dict m)) ds (acc ++ [(d', v)]) next := by
            simp [buildEventIdMap, hdn, hp', hm']
          rw [hstep, ih (acc ++ [(d', v)]) next d, lookup_append_my]
          by_cases he : d = d'
          · subst he
            have hsing : List.lookup d [(d, v)] = some v := by
              simp [List.lookup]
            simp [hdn, hsing, hm', hp']
          · have hbe : (d == d') = false := by
              cases hb : (d == d') with
              | false => rfl
              | true => exact absurd (eq_of_beq hb) he
            have hsing : List.lookup d [(d', v)] = none := by
              simp [List.lookup, hbe]
            cases hacc : acc.lookup d with
            | some w => rfl
            | none => simp only [hsing, mem_head_cond_iff he]
        | none =>
          have hstep : buildEventIdMap p (some (.dict m)) (d' :: ds) acc next
              = buildEventIdMap p (some (.dict m)) ds acc next := by
            simp [buildEventIdMap, hdn, hp', hm']
          rw [hstep, ih acc next d]
          by_cases he : d = d'
          · subst he
            simp [hdn, hm']
          · cases hacc : acc.lookup d with
            | some w => rfl
            | none => simp only [mem_head_cond_iff he]
      · have hpf : p d' = false := by
          cases h : p d' with
          | false => rfl
          | true => exact absurd h hp'
        have hstep : buildEventIdMap p (some (.dict m)) (d' :: ds) acc next
            = buildEventIdMap p (some (.dict m)) ds acc next := by
          simp [buildEventIdMap, hdn, hp']
        rw [hstep, ih acc next d]
        by_cases he : d = d'
        · subst he
          simp [hdn, hpf]
        · cases hacc : acc.lookup d with
          | some w => rfl
          | none => simp only [mem_head_cond_iff he]

/-- Lookup in the resolved map for the dict case, starting from the empty
accumulator: present iff occurring, matching and a dict key. -/
theorem eid_lookup (p : String → Bool) (m : List (String × Int))
    (ds : List String) (d : String) :
    (buildEventIdMap p (some (.dict m)) ds [] 1).lookup d
      = if d ∈ ds ∧ p d = true then m.lookup d else none := by
  rw [buildDict_lookup]
  rfl

/-- The filter-then-decorate step over the selection equals a single
filterMap through the resolution function. -/
theorem filter_sel_eq_filterMap (eid : List (String × Int)) (f : String → Option Int) :
    ∀ (l : List (String × Int)), (∀ q ∈ l, eid.lookup q.1 = f q.1) →
      ((l.filter (fun q => (eid.lookup q.1).isSome)).map
        (fun q => (q.2, (0 : Int), (eid.lookup q.1).getD 0)))
      = l.filterMap (fun q => (f q.1).map (fun v => (q.2, (0 : Int), v))) := by
  intro l
  induction l with
  | nil => intro _; rfl
  | cons q l ih =>
    intro h
    have hq : eid.lookup q.1 = f q.1 := h q (List.mem_cons_self _ _)
    have hrest := ih (fun r hr => h r (List.mem_cons_of_mem _ hr))
    cases hf : f q.1 with
    | none => simp [List.filter_cons, List.filterMap_cons, hq, hf, hrest]
    | some v => simp [List.filter_cons, List.filterMap_cons, hq, hf, hrest]

/-- A list containing an element passing the filter does not filter to
nil. -/
theorem filter_ne_nil_of_mem {α : Type} (l : List α) (pr : α → Bool) (x : α)
    (hx : x ∈ l) (hpx : pr x = true) : l.filter pr ≠ [] := by
  intro h
  have hmem := List.mem_filter.mpr ⟨hx, hpx⟩
  rw [h] at hmem
  cases hmem

/-- events_from_annotations on a non-empty set with an explicit regexp,
with the lets inlined. -/
theorem events_red_some (a : Annotations) (inds : List Int)
    (event_id : Option EventIdArg) (p : String → Bool)
    (h : ¬ a.duration.length = 0) :
    events_from_annotations a inds event_id (some p) =
      (if ((a.description.zip inds).filter (fun q =>
            ((buildEventIdMap p event_id a.description [] 1).lookup q.1).isSome)).length = 0
          ∧ (some p : Option (String → Bool)).isSome = true
       then .error "Could not find any of the events you specified."
       else .ok (((a.description.zip inds).filter (fun q =>
              ((buildEventIdMap p event_id a.description [] 1).lookup q.1).isSome)).map
                (fun q => (q.2, (0 : Int),
                  ((buildEventIdMap p event_id a.description [] 1).lookup q.1).getD 0)),
              .resolved (buildEventIdMap p event_id a.description [] 1))) := by
  unfold events_from_annotations
  rw [if_neg h]

/-- events_from_annotations on a non-empty set with the default pattern:
never an error, the compiled pattern matches everything. -/
theorem events_red_none (a : Annotations) (inds : List Int)
    (event_id : Option EventIdArg) (h : ¬ a.duration.length = 0) :
    events_from_annotations a inds event_id none =
      .ok (((a.description.zip inds).filter (fun q =>
          ((buildEventIdMap (fun _ => true) event_id a.description [] 1).lookup q.1).isSome)).map
            (fun q => (q.2, (0 : Int),
              ((buildEventIdMap (fun _ => true) event_id a.description [] 1).lookup q.1).getD 0)),
          .resolved (buildEventIdMap (fun _ => true) event_id a.description [] 1)) := by
  unfold events_from_annotations
  rw [if_neg h, if_neg (fun hcontra => absurd hcontra.2 (by simp))]

/-- Claim C5: with a dict code map, (i) an explicitly supplied pattern
under which no row both matches and is a dict key makes the call fail with
the no-matching-events error; (ii) with an explicit pattern and at least
one surviving row, the call succeeds keeping exactly the rows whose
description matches the pattern AND is a dict key (pattern applied before
the map lookup), and the resolved map holds exactly the occurring,
matching dict keys; (iii) with the default pattern the call always
succeeds, rows whose description is missing from the dict are silently
dropped, and the resolved map holds exactly the occurring dict keys. -/
theorem C5_events_filtering : ∀ (a : Annotations) (inds : List Int)
    (m : List (String × Int)) (p : String → Bool),
    a.duration.length ≠ 0 →
    ((∀ d ∈ a.description, ¬(p d = true ∧ (m.lookup d).isSome = true)) →
      events_from_annotations a inds (some (.dict m)) (some p)
        = .error "Could not find any of the events you specified.")
  ∧ ((∃ q ∈ a.description.zip inds, p q.1 = true ∧ (m.lookup q.1).isSome = true) →
      ∃ rm, events_from_annotations a inds (some (.dict m)) (some p)
          = .ok ((a.description.zip inds).filterMap
              (fun q => if p q.1 = true
                then (m.lookup q.1).map (fun v => (q.2, (0 : Int), v)) else none),
              .resolved rm)
        ∧ (∀ d v, rm.lookup d = some v ↔
            d ∈ a.description ∧ p d = true ∧ m.lookup d = some v))
  ∧ (∃ rm, events_from_annotations a inds (some (.dict m)) none
        = .ok ((a.description.zip inds).filterMap
            (fun q => (m.lookup q.1).map (fun v => (q.2, (0 : Int), v))),
            .resolved rm)
      ∧ (∀ d v, rm.lookup d = some v ↔
          d ∈ a.description ∧ m.lookup d = some v)) := by
  intro a inds m p hne
  refine ⟨?_, ?_, ?_⟩
  · intro hno
    rw [events_red_some a inds (some (.dict m)) p hne]
    have hsel : (a.description.zip inds).filter (fun q =>
        ((buildEventIdMap p (some (.dict m)) a.description [] 1).lookup q.1).isSome)
        = [] := by
      rw [List.filter_eq_nil_iff]
      intro q hq
      obtain ⟨hq1, -⟩ := List.of_mem_zip hq
      rw [eid_lookup]
      by_cases hc : q.1 ∈ a.description ∧ p q.1 = true
      · rw [if_pos hc]
        intro hs
        exact hno q.1 hq1 ⟨hc.2, hs⟩
      · rw [if_neg hc]
        simp
    rw [hsel, if_pos ⟨rfl, rfl⟩]
  · rintro ⟨q, hqmem, hqp, hqs⟩
    refine ⟨buildEventIdMap p (some (.dict m)) a.description [] 1, ?_, ?_⟩
    · rw [events_red_some a inds (some (.dict m)) p hne]
      have hqpred : ((buildEventIdMap p (some (.dict m)) a.description [] 1).lookup
          q.1).isSome = true := by
        rw [eid_lookup, if_pos ⟨(List.of_mem_zip hqmem).1, hqp⟩]
        exact hqs
      have hnn := filter_ne_nil_of_mem (a.description.zip inds)
        (fun r => ((buildEventIdMap p (some (.dict m)) a.description [] 1).lookup
          r.1).isSome) q hqmem hqpred
      rw [if_neg (fun hcontra => hnn (List.length_eq_zero.mp hcontra.1))]
      have hptw : ∀ r ∈ a.description.zip inds,
          (buildEventIdMap p (some (.dict m)) a.description [] 1).lookup r.1
            = if p r.1 = true then m.lookup r.1 else none := by
        intro r hr
        rw [eid_lookup]
        by_cases hp : p r.1 = true
        · rw [if_pos ⟨(List.of_mem_zip hr).1, hp⟩, if_pos hp]
        · rw [if_neg (fun hcontra => hp hcontra.2), if_neg hp]
      rw [filter_sel_eq_filterMap (buildEventIdMap p (some (.dict m)) a.description [] 1)
        (fun d => if p d = true then m.lookup d else none) (a.description.zip inds) hptw]
      simp [apply_ite]
    · intro d v
      rw [eid_lookup]
      by_cases hc : d ∈ a.description ∧ p d = true
      · rw [if_pos hc]
        constructor
        · intro hv; exact ⟨hc.1, hc.2, hv⟩
        · intro hv; exact hv.2.2
      · rw [if_neg hc]
        constructor
        · intro hv; cases hv
        · intro hv; exact absurd ⟨hv.1, hv.2.1⟩ hc
  · refine ⟨buildEventIdMap (fun _ => true) (some (.dict m)) a.description [] 1, ?_, ?_⟩
    · rw [events_red_none a inds (some (.dict m)) hne]
      have hptw : ∀ r ∈ a.description.zip inds,
          (buildEventIdMap (fun _ => true) (some (.dict m)) a.description [] 1).lookup r.1
            = m.lookup r.1 := by
        intro r hr
        rw [eid_lookup, if_pos ⟨(List.of_mem_zip hr).1, rfl⟩]
      rw [filter_sel_eq_filterMap
        (buildEventIdMap (fun _ => true) (some (.dict m)) a.description [] 1)
        (fun d => m.lookup d) (a.description.zip inds) hptw]
    · intro d v
      rw [eid_lookup]
      by_cases hc : d ∈ a.description
      · rw [if_pos ⟨hc, rfl⟩]
        constructor
        · intro hv; exact ⟨hc, hv⟩
        · intro hv; exact hv.2
      · rw [if_neg (fun hcontra => hc hcontra.1)]
        constructor
        · intro hv; cases hv
        · intro hv; exact absurd hv.1 hc

/-- Witness for C5 at a concrete input: a pattern matching nothing fails
with the no-matching-events error. -/
theorem C5_witness :
    events_from_annotations ⟨none, [0], [0], ["a"]⟩ [10]
        (some (.dict [("a", 1)])) (some (fun d => d == "z"))
      = .error "Could not find any of the events you specified." :=
  (C5_events_filtering ⟨none, [0], [0], ["a"]⟩ [10] [("a", 1)] (fun d => d == "z")
    (by decide)).1 (by decide)

/-- Claim C10: crop with both bounds omitted on an empty annotation set
fails (the default tmin is the minimum over the absolute onsets, undefined
for an empty set) rather than acting as a no-op. -/
theorem C10_crop_empty_fails : ∀ a : Annotations, a.onset = [] →
    a.crop none none
      = .error "zero-size array to reduction operation minimum which has no identity" := by
  intro a h
  unfold Annotations.crop resolveTmin
  rw [h]
  rfl

/-- Witness for C10 at the concrete empty set. -/
theorem C10_witness :
    Annotations.crop ⟨none, [], [], []⟩ none none
      = .error "zero-size array to reduction operation minimum which has no identity" :=
  C10_crop_empty_fails ⟨none, [], [], []⟩ rfl

end MneAnnot
